import Mathlib

/-!
Shallow embedding of `export.py` (Centauri Carbon timelapse export tool).

Strings are modelled as `List Char` (`Str`).  The regex-driven HTML listing
parser is embedded at the granularity of rows and anchors: the row regex
(line 58) yields a `Row` per `<tr>…</tr>` fragment, the anchor regex
(line 59) yields the row's anchors in order, and the `<td name="…">` regex
(line 60) yields the row's integer `name` attributes in order.  The
semantics of the anchor regex's negative lookahead `(?![^"]*\.mp4)` with
`re.IGNORECASE` is: an anchor is matched exactly when its `href` value
(which by `([^"]+)` is a nonempty quote-free string) does not contain
`.mp4` case-insensitively.  `urllib.parse.urljoin` is modelled by
CPython's segment-merge algorithm (dot-segment resolution included) for
plain path references.  Delivered websocket messages are modelled as JSON
values (`Json`), and the duck-typed field probing of lines 158-173 —
including the uncaught exceptions it raises on wrong-typed values — by
`ws_process`.  Networking, the event loop and the filesystem are modelled
by explicit inputs (delivered websocket events, probe results, attempt
outcomes) and by an effect trace (`Eff`).
-/

namespace CentauriExport

/-- Strings as lists of characters. -/
abbrev Str := List Char

/-- Coerce a Lean string literal to the `List Char` representation. -/
def str (s : String) : Str := s.data

/-- Lowercase a string character-wise (models `re.IGNORECASE` matching). -/
def lowerStr (s : Str) : Str := s.map Char.toLower

/-- Semantics of the negative lookahead `(?![^"]*\.mp4)` of the anchor
regex (line 59) under `re.IGNORECASE`: the `href` value contains `.mp4`
(case-insensitively) somewhere. -/
def containsMp4 (s : Str) : Bool := decide ((str ".mp4") <:+: lowerStr s)

/-- One anchor (`<a href="…">text</a>`) of a listing row, as captured by
the anchor regex of line 59: `href` is capture group 1, `text` group 2. -/
structure Anchor where
  href : Str
  text : Str
  deriving DecidableEq

/-- One `<tr>…</tr>` fragment of the listing document: its anchors in
order of appearance, and the integer `name="…"` attributes of its `<td>`
tags in order of appearance (the regex of line 60 captures `-?\d+`, and
the `re.match(r"-?\d+$", n)` filter of line 71 never rejects such a
capture, so the values are plain integers). -/
structure Row where
  anchors : List Anchor
  tdNames : List Int
  deriving DecidableEq

/-- The `latest` dictionary built on line 77. -/
structure Entry where
  name : Str
  href : Str
  modified : Int
  deriving DecidableEq

/-- An anchor passes the anchor regex of line 59 exactly when its target
does not contain `.mp4` (case-insensitively). -/
def anchorOk (a : Anchor) : Bool := !(containsMp4 a.href)

/-- Models `link_re.search(row)` (line 65): the first anchor of the row
matched by the anchor regex. -/
def rowLink (r : Row) : Option Anchor := r.anchors.find? anchorOk

/-- Spec-side anchor selection for claim C4, following the spec's words:
the first anchor whose target does not END in the media extension `.mp4`. -/
def rowLinkSpecEndsWith (r : Row) : Option Anchor :=
  r.anchors.find? fun a => !((str ".mp4").isSuffixOf a.href)

/-- Fuel-indexed body of `stripTags`; the fuel argument only makes the
recursion structural and is always called with enough fuel. -/
def stripTagsFuel : Nat → Str → Str
  | 0, s => s
  | _, [] => []
  | fuel + 1, c :: rest =>
    if c = '<' then
      if '>' ∈ rest then
        stripTagsFuel fuel ((rest.dropWhile fun x => x ≠ '>').tail)
      else c :: rest
    else c :: stripTagsFuel fuel rest

/-- Models `re.sub(r"<[^>]*>", "", text)` (line 69): drop every maximal
`<…>` fragment; a `<` with no later `>` is left in place. -/
def stripTags (s : Str) : Str := stripTagsFuel s.length s

/-- Models Python's `str.strip()` (line 69): drop whitespace from both
ends. -/
def pyStrip (s : Str) : Str :=
  ((s.dropWhile Char.isWhitespace).reverse.dropWhile Char.isWhitespace).reverse

/-- Process one row (lines 64-74): take the first matched anchor (else
discard the row), compute the display name (tag-stripped anchor text,
falling back to the href when empty, line 69), and the modification
ordinal (first `<td name>` integer, lines 71-74; discard the row when
there is none). -/
def rowEntry (r : Row) : Option Entry :=
  match rowLink r with
  | none => none
  | some link =>
    let nm := pyStrip (stripTags link.text)
    let name := if nm = [] then link.href else nm
    match r.tdNames.head? with
    | none => none
    | some modified => some ⟨name, link.href, modified⟩

/-- The running-maximum update of lines 76-77: replace the current best
only on a strictly larger ordinal. -/
def stepEntry (latest : Option Entry) (e : Entry) : Option Entry :=
  match latest with
  | none => some e
  | some l => if e.modified > l.modified then some e else some l

/-- One iteration of the row loop (lines 63-77). -/
def rowStep (latest : Option Entry) (r : Row) : Option Entry :=
  match rowEntry r with
  | none => latest
  | some e => stepEntry latest e

/-- Models `parse_latest_from_listing` (lines 57-79). -/
def parse_latest_from_listing (rows : List Row) : Option Entry :=
  rows.foldl rowStep none

/-- Keep the first and the last segment and drop the empty segments in
between (CPython's `segments[1:-1] = filter(None, segments[1:-1])`). -/
def dropInnerEmpty (xs : List Str) : List Str :=
  match xs with
  | [] => []
  | [x] => [x]
  | x :: rest =>
    (x :: (rest.dropLast.filter fun s => decide (s ≠ []))) ++ rest.getLast?.toList

/-- Models `urllib.parse.urljoin(base, url)` (line 110) for plain path
references: neither argument carries a scheme, an authority, a query or a
fragment (the listing path and the hrefs matched by the listing regex are
of this shape; a leading `//`, a `scheme:`, a `?` or a `#` would engage
url splitting, which is out of scope).  Follows CPython's urljoin: an
empty url returns the base; a rooted url ignores the base; otherwise the
base's last segment is dropped unless it is empty, the segment lists are
merged, inner empty segments are dropped, `.` segments are skipped and
`..` segments pop (ignoring underflow), a trailing `.` or `..` leaves a
trailing separator, and an empty join yields `/`. -/
def urljoin (base url : Str) : Str :=
  if url = [] then base
  else
    let segments :=
      if url.head? = some '/' then url.splitOn '/'
      else
        let base_parts := base.splitOn '/'
        let base_parts :=
          if base_parts.getLast? = some ([] : Str) then base_parts
          else base_parts.dropLast
        dropInnerEmpty (base_parts ++ url.splitOn '/')
    let resolved := segments.foldl
      (fun acc seg =>
        if seg = str ".." then acc.dropLast
        else if seg = str "." then acc
        else acc ++ [seg]) []
    let resolved :=
      if segments.getLast? = some (str ".") ∨ segments.getLast? = some (str "..")
      then resolved ++ [([] : Str)] else resolved
    let joined := List.intercalate ['/'] resolved
    if joined = [] then ['/'] else joined

/-- Models lines 102-114 of `find_latest_mp4_path`: build the mp4 path
from the winning entry's href.  An absolute reference is used directly
(line 107); a relative one is resolved with `urljoin` against the
slash-terminated listing path (line 110); one trailing separator is
stripped and the fixed extension appended (lines 113-114). -/
def resolve_mp4_path (list_path : Str) (href : Str) : Str :=
  let candidate0 :=
    if href.head? = some '/' then href
    else urljoin
      (if list_path.getLast? = some '/' then list_path else list_path ++ ['/']) href
  let candidate :=
    if candidate0.getLast? = some '/' then candidate0.dropLast else candidate0
  candidate ++ str ".mp4"

/-- Models `find_latest_mp4_path` (lines 81-121).  `fetched = none` models
`http_get` raising (lines 91-95, `sys.exit(1)`); an unusable listing exits
with code 1 as well (lines 98-100); otherwise the resolved path is
returned.  Failures carry the process exit code. -/
def find_latest_mp4_path (fetched : Option (List Row)) (list_path : Str) :
    Except Nat Str :=
  match fetched with
  | none => Except.error 1
  | some rows =>
    match parse_latest_from_listing rows with
    | none => Except.error 1
    | some latest => Except.ok (resolve_mp4_path list_path latest.href)

/-- Result record of one `download_file` call (lines 32-55): whether it
returned `True`, the sequence of `time.sleep(wait)` delays in order, the
number of attempts that ran, and the exception reported on final failure
(line 51). -/
structure DLRun (ε : Type) where
  success : Bool
  sleeps : List ℚ
  attemptsMade : Nat
  lastError : Option ε
  deriving DecidableEq

/-- Body of the retry loop of `download_file` (lines 35-54).  `attempt i`
is the outcome of the `i`-th download attempt (`none` = success, `some e`
= the raised exception).  `i` is the 1-based attempt counter, `wait` the
current backoff, `sleeps` the delays slept so far.  The fuel equals the
number of remaining loop iterations (`retries + 1 - i`); when it reaches 0
the `for` loop has been exhausted without running (only possible for
`retries = 0`, line 55). -/
def download_go {ε : Type} (attempt : Nat → Option ε) (retries : Nat) (backoff : ℚ) :
    Nat → Nat → ℚ → List ℚ → DLRun ε
  | 0, i, _, sleeps => ⟨false, sleeps, i - 1, none⟩
  | fuel + 1, i, wait, sleeps =>
    match attempt i with
    | none => ⟨true, sleeps, i, none⟩
    | some e =>
      if i = retries then ⟨false, sleeps, i, some e⟩
      else download_go attempt retries backoff fuel (i + 1)
        (min (wait * backoff) 8) (sleeps ++ [wait])

/-- Models `download_file` (lines 32-55): up to `retries` attempts,
initial backoff `1.0`, growth factor `backoff`, ceiling `8.0`. -/
def download_file {ε : Type} (attempt : Nat → Option ε) (retries : Nat)
    (backoff : ℚ) : DLRun ε :=
  download_go attempt retries backoff retries 1 1 []

/-- JSON values as produced by `json.loads`.  Numbers are modelled as
integers: for the two operations the code performs on them — truthiness
and equality with `323` — every JSON float behaves exactly like some
integer (`323.0` like `323`, `0.0` like `0`, any other float like any
other nonzero non-323 integer), so the integer model loses no behaviour. -/
inductive Json where
  | jnull : Json
  | jbool (b : Bool) : Json
  | jnum (n : Int) : Json
  | jstr (s : Str) : Json
  | jarr (elems : List Json) : Json
  | jobj (fields : List (Str × Json)) : Json

/-- Python truthiness of a JSON value. -/
def jtruthy : Json → Bool
  | Json.jnull => false
  | Json.jbool b => b
  | Json.jnum n => decide (n ≠ 0)
  | Json.jstr s => !s.isEmpty
  | Json.jarr xs => !xs.isEmpty
  | Json.jobj kvs => !kvs.isEmpty

/-- Python `v == n` for a probed optional value against an integer
literal (line 164): true exactly for the number `n` (`none` is Python's
`None`; values of other types compare unequal). -/
def jeqNum (v : Option Json) (n : Int) : Bool :=
  match v with
  | some (Json.jnum m) => decide (m = n)
  | _ => false

/-- Python `v == s` for a probed optional value against a string
(line 169): true exactly for the equal string. -/
def jeqStr (v : Option Json) (s : Str) : Bool :=
  match v with
  | some (Json.jstr u) => decide (u = s)
  | _ => false

/-- Python `v.get(key)`: `Except.error ()` models the uncaught
AttributeError raised when `v` is not a dict; otherwise the value at
`key` (`none` models absence, Python's `None`). -/
def pyGet (v : Json) (key : Str) : Except Unit (Option Json) :=
  match v with
  | Json.jobj kvs =>
    Except.ok ((kvs.find? fun kv => decide (kv.1 = key)).map fun kv => kv.2)
  | _ => Except.error ()

/-- Python `x or {}` on an optional value (`none` is Python's `None`):
any falsy value is replaced by the empty dict. -/
def orEmptyObj (v : Option Json) : Json :=
  match v with
  | some j => if jtruthy j then j else Json.jobj []
  | none => Json.jobj []

/-- Python `x or []`: any falsy value is replaced by the empty list. -/
def orEmptyList (v : Option Json) : Json :=
  match v with
  | some j => if jtruthy j then j else Json.jarr []
  | none => Json.jarr []

/-- Python `urls[0] if urls else None` (line 166): `none` for a falsy
`urls`; indexing a truthy list yields its head, a truthy string its first
character (a one-character string); indexing any other truthy value
(dict, number, boolean) raises KeyError/TypeError, modelled as
`Except.error ()`. -/
def pyIndex0OrNone (urls : Json) : Except Unit (Option Json) :=
  if jtruthy urls then
    match urls with
    | Json.jarr (x :: _) => Except.ok (some x)
    | Json.jstr (c :: _) => Except.ok (some (Json.jstr [c]))
    | _ => Except.error ()
  else Except.ok none

/-- How the `ws_waiter` loop body ends on one received text: the watcher
confirms and returns, continues waiting, or raises an uncaught exception
(which terminates the coroutine). -/
inductive MsgStep where
  | confirm : MsgStep
  | skip : MsgStep
  | crash : MsgStep
  deriving DecidableEq

/-- Models lines 158-173 on one received text.  `none` is a text that
`json.loads` rejects (caught on line 160, `continue`).  Otherwise the
duck-typed probing runs: `d = (data or {}).get("Data") or {}` (line 163),
`d.get("Cmd") == 323` (line 164), `urls = ((d.get("Data") or {}).get(
"Url")) or []` (line 165), `got = urls[0] if urls else None` (line 166),
and `got == target` (line 169) confirms.  Probing a truthy non-dict with
`.get`, or indexing a truthy non-sequence, raises an exception that no
handler catches (`crash`). -/
def ws_process (target : Str) (msg : Option Json) : MsgStep :=
  match msg with
  | none => MsgStep.skip
  | some data =>
    match pyGet (if jtruthy data then data else Json.jobj []) (str "Data") with
    | Except.error _ => MsgStep.crash
    | Except.ok dOpt =>
      let d := orEmptyObj dOpt
      match pyGet d (str "Cmd") with
      | Except.error _ => MsgStep.crash
      | Except.ok cmdOpt =>
        if jeqNum cmdOpt 323 then
          match pyGet d (str "Data") with
          | Except.error _ => MsgStep.crash
          | Except.ok ddOpt =>
            match pyGet (orEmptyObj ddOpt) (str "Url") with
            | Except.error _ => MsgStep.crash
            | Except.ok urlOpt =>
              match pyIndex0OrNone (orEmptyList urlOpt) with
              | Except.error _ => MsgStep.crash
              | Except.ok got =>
                if jeqStr got target then MsgStep.confirm
                else MsgStep.skip
        else MsgStep.skip

/-- One observable event of the `ws.recv` loop (lines 149-156): a
sub-timeout of `asyncio.wait_for` (continue), any other receive exception
(`break`), or a delivered text (`none` when `json.loads` rejects it). -/
inductive WsEvent where
  | timeout : WsEvent
  | recvError : WsEvent
  | recv (msg : Option Json) : WsEvent

/-- Models the `ws_waiter` task (lines 147-173) over the timed events it
observes before the overall deadline (times are seconds from the start of
the watch, nondecreasing).  Returns `none` when the task is still looping
after the last event (pending at the deadline), `some (true, t)` when it
sets `ws_ready` at time `t` and returns (line 170), and `some (false, t)`
when it completes at time `t` without setting any state — either the
`break` on a receive error (lines 153-156) or an uncaught exception from
the probing (the coroutine ends with the exception; for the race both are
simply a completed task with no flag set). -/
def ws_waiter (target : Str) : List (ℚ × WsEvent) → Option (Bool × ℚ)
  | [] => none
  | (_, WsEvent.timeout) :: es => ws_waiter target es
  | (t, WsEvent.recvError) :: _ => some (false, t)
  | (t, WsEvent.recv m) :: es =>
    match ws_process target m with
    | MsgStep.confirm => some (true, t)
    | MsgStep.skip => ws_waiter target es
    | MsgStep.crash => some (false, t)

/-- True when a timed event is a qualifying confirmation for `target`:
its processing matches command code 323 with the requested path as first
element of the carried path list (lines 164-170). -/
def qualifies (target : Str) (p : ℚ × WsEvent) : Bool :=
  match p.2 with
  | WsEvent.recv m => decide (ws_process target m = MsgStep.confirm)
  | _ => false

/-- Body of the `http_waiter` loop (lines 176-184).  `probe k` is the
result of the `k`-th `http_exists` call; `t` is the elapsed time (probe
round-trips are not modelled, only the slept delays advance time).  The
fuel only makes the recursion structural: every iteration advances time by
at least `1.5`, so `fuel` iterations cover any deadline below `1.5 * fuel`.
Returns the time of the first successful probe, `none` when the deadline
elapses first. -/
def http_waiter_go (probe : Nat → Bool) (max_wait : ℚ) :
    Nat → Nat → ℚ → ℚ → Option ℚ
  | 0, _, _, _ => none
  | fuel + 1, k, t, delay =>
    if t < max_wait then
      if probe k then some t
      else http_waiter_go probe max_wait fuel (k + 1) (t + delay)
        (min (delay * (3 / 2)) 5)
    else none

/-- Models the `http_waiter` task (lines 176-184): first probe at time 0,
initial delay `1.5`, growth `1.5`, ceiling `5.0`. -/
def http_waiter (probe : Nat → Bool) (max_wait : ℚ) (fuel : Nat) : Option ℚ :=
  http_waiter_go probe max_wait fuel 0 0 (3 / 2)

/-- Models `asyncio.wait({tws, thttp}, timeout=max_wait,
return_when=FIRST_COMPLETED)` together with the `finally` cancellation of
the loser (lines 190-199) and reads off the two completion flags.
`wsDone` is the ws task's completion (flag it set, completion time),
`none` when it is still pending at the deadline; `pollDone` is the time
the poll task set `http_ready`, `none` when it never did.  The wait
returns at the earliest completion (or at `max_wait`), and the task that
has not completed by then is cancelled, so its flag stays unset.  A tie is
resolved in favour of the ws task (the source fixes no order).  Result:
`(ws_ready, http_ready, time at which the wait returned)`. -/
def raceResult (wsDone : Option (Bool × ℚ)) (pollDone : Option ℚ)
    (max_wait : ℚ) : Bool × Bool × ℚ :=
  match wsDone, pollDone with
  | none, none => (false, false, max_wait)
  | some wd, none => (wd.1, false, wd.2)
  | none, some tp => (false, true, tp)
  | some wd, some tp =>
    if wd.2 ≤ tp then (wd.1, false, wd.2) else (false, true, tp)

/-- Spec-level completion state (spec section 3) read off the code's two
flags: `ws_ready` set means ConfirmedByPush, otherwise `http_ready` set
means ConfirmedByPoll, otherwise the watch timed out. -/
inductive CompletionState where
  | confirmedByPush : CompletionState
  | confirmedByPoll : CompletionState
  | timedOut : CompletionState
  deriving DecidableEq

/-- Map the two flags to the spec's completion state. -/
def watchOutcome (ws_ready http_ready : Bool) : CompletionState :=
  if ws_ready then CompletionState.confirmedByPush
  else if http_ready then CompletionState.confirmedByPoll
  else CompletionState.timedOut

/-- Observable effects of the tail of `run` (lines 201-226), in program
order: console prints, directory creation (line 221), the download call
(line 222) and process exit (lines 210, 225). -/
inductive Eff where
  | printReady (url : Str) : Eff
  | printHeadsUp : Eff
  | printDownloadUrl (url : Str) : Eff
  | printSaved (dest : Str) : Eff
  | errTimedOut : Eff
  | errDownloadFailed (url : Str) : Eff
  | makeDirs (dir : Str) : Eff
  | downloadTo (url dest : Str) : Eff
  | exitWith (code : Nat) : Eff
  deriving DecidableEq

/-- True for effects that touch the local filesystem. -/
def writesFs : Eff → Bool
  | Eff.makeDirs _ => true
  | Eff.downloadTo _ _ => true
  | _ => false

/-- True for the process-exit effect. -/
def isExitEff : Eff → Bool
  | Eff.exitWith _ => true
  | _ => false

/-- Exit codes occurring in an effect trace, in order. -/
def exitCodesOf (effs : List Eff) : List Nat :=
  effs.filterMap fun e =>
    match e with
    | Eff.exitWith n => some n
    | _ => none

/-- Models lines 201-226 of `run`: evaluate `ok` (line 201), run the
post-hoc existence check (lines 202-204, its probe result is `postCheck`),
then either fail with the timeout message and exit code 1 (lines 208-210),
or report readiness, optionally warn (lines 212-214), and either print the
download URL and return (lines 216-218) or create the output directory,
download (`dlOk` is the `download_file` result) and exit 2 on failure
(lines 220-226). -/
def run_tail (http_url dest_path download_dir : Str) (check url_only : Bool)
    (ws_ready http_ready0 postCheck dlOk : Bool) : List Eff :=
  let ok := ws_ready || http_ready0
  let http_ready := if ok && check && !http_ready0 then postCheck else http_ready0
  if !ok then [Eff.errTimedOut, Eff.exitWith 1]
  else
    Eff.printReady http_url ::
      ((if check && !http_ready then [Eff.printHeadsUp] else []) ++
        (if url_only then [Eff.printDownloadUrl http_url]
         else Eff.makeDirs download_dir ::
           Eff.downloadTo http_url dest_path ::
             (if dlOk then [Eff.printSaved dest_path]
              else [Eff.errDownloadFailed http_url, Eff.exitWith 2])))

/-- Models `os.path.basename` for the slash-separated paths used here. -/
def basename (p : Str) : Str := (p.reverse.takeWhile fun c => c ≠ '/').reverse

/-- Models `os.path.join` (line 127) for one component. -/
def path_join (d f : Str) : Str :=
  if f.head? = some '/' then f
  else if d = [] then f
  else if d.getLast? = some '/' then d ++ f
  else d ++ '/' :: f

/-- Models the completion-watch part of `run` (lines 123-226) end to end:
derive `http_url` (line 125) and the destination path (lines 126-127),
run the two watcher tasks over their inputs, race them (lines 190-199) and
produce the effect trace of the tail. -/
def run_model (host target : Str) (check url_only : Bool)
    (wsEvents : List (ℚ × WsEvent)) (probe : Nat → Bool) (max_wait : ℚ)
    (fuel : Nat) (download_dir : Str) (postCheck dlOk : Bool) : List Eff :=
  let http_url := str "http://" ++ host ++ target
  let dest_path := path_join download_dir (basename target)
  let r := raceResult (ws_waiter target wsEvents)
    (http_waiter probe max_wait fuel) max_wait
  run_tail http_url dest_path download_dir check url_only r.1 r.2.1 postCheck dlOk

/-- True when the ws watcher task completed having set `ws_ready`. -/
def wsConfirmed (o : Option (Bool × ℚ)) : Bool :=
  match o with
  | some (true, _) => true
  | _ => false

/-- The binary running-maximum of the reduce of lines 76-77 (strictly
larger ordinal wins, so the earlier entry is kept on ties). -/
def better (l e : Entry) : Entry := if e.modified > l.modified then e else l

/-- Spec-side formulation of the resolver result for claim C2, following
the spec's words: the first entry of the qualifying list whose ordinal is
maximal. -/
def latestSpec (l : List Entry) : Option Entry :=
  l.find? fun e => l.all fun y => decide (y.modified ≤ e.modified)

/-! ### Claim C4: anchor selection within a row -/

/-- C4, counterexample.  The claim says anchors are excluded exactly when
their target ends in `.mp4`.  On the row whose only anchor has target
`movie.mp4.bak` (which does not end in `.mp4`), the code's selection
(negative lookahead: no `.mp4` anywhere) and the claim's selection
disagree: the code discards the anchor, the claim keeps it. -/
theorem c4_counterexample :
    rowLink ⟨[⟨str "movie.mp4.bak", str "M"⟩], [5]⟩ ≠
      rowLinkSpecEndsWith ⟨[⟨str "movie.mp4.bak", str "M"⟩], [5]⟩ := by
  decide

/-- C4, amended: within each row the resolver extracts the first anchor
whose link target does not contain the media extension `.mp4` anywhere
(case-insensitively); every anchor before it is excluded precisely for
containing `.mp4`, and no other anchor is excluded. -/
theorem c4_amended (r : Row) (a : Anchor) (h : rowLink r = some a) :
    anchorOk a = true ∧
    ∃ pre post, r.anchors = pre ++ a :: post ∧
      ∀ b ∈ pre, containsMp4 b.href = true := by
  rw [rowLink] at h
  obtain ⟨hp, pre, post, heq, hpre⟩ := List.find?_eq_some.mp h
  refine ⟨hp, pre, post, heq, fun b hb => ?_⟩
  have hb' := hpre b hb
  simpa [anchorOk] using hb'

/-- C4, witness: on a concrete row the amended statement produces the
decomposition around the selected anchor. -/
theorem c4_witness :
    anchorOk ⟨str "B/", str "B"⟩ = true ∧
    ∃ pre post,
      [(⟨str "x.mp4", str "x"⟩ : Anchor), ⟨str "B/", str "B"⟩] =
        pre ++ (⟨str "B/", str "B"⟩ : Anchor) :: post ∧
      ∀ b ∈ pre, containsMp4 b.href = true :=
  c4_amended ⟨[⟨str "x.mp4", str "x"⟩, ⟨str "B/", str "B"⟩], [3]⟩
    ⟨str "B/", str "B"⟩ (by decide)

/-! ### Claim C5: artifact-path normalization -/

/-- C5: an absolute reference is used directly, a relative one is
resolved with `urljoin` against the slash-terminated listing path; exactly
one trailing separator is stripped when present and the fixed extension is
appended; on the spec's concrete example the result is exactly
`/local/aic_tlp/FOO.mp4`, and a dot-segment reference is resolved the way
`urljoin` does before the extension is appended. -/
theorem c5_path_normalization (lp href : Str) :
    (href.head? = some '/' →
      resolve_mp4_path lp href =
        (if href.getLast? = some '/' then href.dropLast else href) ++ str ".mp4") ∧
    (¬ href.head? = some '/' →
      resolve_mp4_path lp href =
        (if (urljoin (if lp.getLast? = some '/' then lp else lp ++ ['/']) href).getLast?
              = some '/' then
          (urljoin (if lp.getLast? = some '/' then lp else lp ++ ['/']) href).dropLast
         else urljoin (if lp.getLast? = some '/' then lp else lp ++ ['/']) href)
          ++ str ".mp4") ∧
    resolve_mp4_path (str "/local/aic_tlp/") (str "/local/aic_tlp/FOO/") =
      str "/local/aic_tlp/FOO.mp4" ∧
    resolve_mp4_path (str "/local/aic_tlp/") (str "a/../b/") =
      str "/local/aic_tlp/b.mp4" := by
  refine ⟨fun h => ?_, fun h => ?_, by decide, by decide⟩
  · simp [resolve_mp4_path, h]
  · simp [resolve_mp4_path, h]

/-- C5, witness: the theorem applied to the spec's concrete example, with
its absolute-reference hypothesis discharged. -/
theorem c5_witness :
    resolve_mp4_path (str "/local/aic_tlp/") (str "/local/aic_tlp/FOO/") =
      str "/local/aic_tlp/FOO.mp4" :=
  ((c5_path_normalization (str "/local/aic_tlp/") (str "/local/aic_tlp/FOO/")).1
      (by decide)).trans (by decide)

/-! ### Claim C3: distinctness of failure exit codes -/

/-- C3, counterexample.  A watch that times out exits with code 1 (line
210), and a failed listing resolution also exits with code 1 (lines 95,
100), so "timed out waiting" and "could not resolve latest" map to the
same process outcome: the three failure kinds are not pairwise distinct. -/
theorem c3_counterexample :
    exitCodesOf (run_model (str "printer") (str "/local/aic_tlp/A.mp4")
        false false [] (fun _ => false) 3 4 (str ".") false true) = [1] ∧
    find_latest_mp4_path none (str "/local/aic_tlp/") = Except.error 1 := by
  constructor
  · norm_num [run_model, run_tail, raceResult, ws_waiter, http_waiter,
      http_waiter_go, exitCodesOf]
    decide
  · rfl

/-- C3, amended: "timed out waiting" and "could not resolve latest" both
exit with code 1; "download failed" exits with code 2, distinct from the
other two. -/
theorem c3_amended :
    exitCodesOf (run_model (str "printer") (str "/local/aic_tlp/A.mp4")
        false false [] (fun _ => false) 3 4 (str ".") false true) = [1] ∧
    find_latest_mp4_path none (str "/local/aic_tlp/") = Except.error 1 ∧
    exitCodesOf (run_model (str "printer") (str "/local/aic_tlp/A.mp4")
        false false
        [((0 : ℚ), WsEvent.recv (some (Json.jobj [(str "Data", Json.jobj
          [(str "Cmd", Json.jnum 323),
           (str "Data", Json.jobj [(str "Url",
             Json.jarr [Json.jstr (str "/local/aic_tlp/A.mp4")])])])])))]
        (fun _ => false) 3 4 (str ".") false false) = [2] ∧
    (2 : Nat) ≠ 1 := by
  have hws : ws_waiter (str "/local/aic_tlp/A.mp4")
      [((0 : ℚ), WsEvent.recv (some (Json.jobj [(str "Data", Json.jobj
        [(str "Cmd", Json.jnum 323),
         (str "Data", Json.jobj [(str "Url",
           Json.jarr [Json.jstr (str "/local/aic_tlp/A.mp4")])])])])))]
      = some (true, 0) := rfl
  refine ⟨?_, rfl, ?_, by norm_num⟩
  · norm_num [run_model, run_tail, raceResult, ws_waiter, http_waiter,
      http_waiter_go, exitCodesOf]
    decide
  · norm_num [run_model, run_tail, raceResult, hws, http_waiter,
      http_waiter_go, exitCodesOf]
    decide

/-! ### Claim C1: connection error on the push watcher -/

/-- C1, behaviour of the code at the failing input.  The push watcher hits
a receive error at time 1 and completes without setting any state; the
poll watcher's third probe would succeed at time 15/4, well before the
deadline 180.  Because `asyncio.wait` uses FIRST_COMPLETED, the dead push
watcher's completion ends the wait at time 1, the poll watcher is
cancelled, and the run prints the timeout error and exits 1 immediately —
not the ConfirmedByPoll outcome the claim requires, and surfaced long
before the deadline elapses. -/
theorem c1_recv_error_kills_watch :
    ws_waiter (str "/local/aic_tlp/FOO.mp4") [((1 : ℚ), WsEvent.recvError)] =
      some (false, 1) ∧
    http_waiter (fun k => decide (2 ≤ k)) 180 60 = some (15 / 4) ∧
    ((15 : ℚ) / 4) < 180 ∧
    raceResult (ws_waiter (str "/local/aic_tlp/FOO.mp4") [((1 : ℚ), WsEvent.recvError)])
        (http_waiter (fun k => decide (2 ≤ k)) 180 60) 180 = (false, false, 1) ∧
    run_model (str "printer") (str "/local/aic_tlp/FOO.mp4") false false
        [((1 : ℚ), WsEvent.recvError)] (fun k => decide (2 ≤ k)) 180 60
        (str ".") false true = [Eff.errTimedOut, Eff.exitWith 1] := by
  refine ⟨rfl, ?_, by norm_num, ?_, ?_⟩
  · norm_num [http_waiter, http_waiter_go]
  · norm_num [raceResult, ws_waiter, http_waiter, http_waiter_go]
  · norm_num [run_model, run_tail, raceResult, ws_waiter, http_waiter, http_waiter_go]

/-! ### Helper lemmas on the watcher tasks -/

/-- If no delivered event is a qualifying confirmation for `target`, the
push watcher never completes with `ws_ready` set. -/
theorem ws_waiter_no_confirm (target : Str) (evs : List (ℚ × WsEvent))
    (h : evs.all (fun p => !(qualifies target p)) = true) :
    wsConfirmed (ws_waiter target evs) = false := by
  induction evs with
  | nil => rfl
  | cons p es ih =>
    obtain ⟨t, e⟩ := p
    simp only [List.all_cons, Bool.and_eq_true] at h
    obtain ⟨hp, hes⟩ := h
    cases e with
    | timeout => simpa [ws_waiter] using ih hes
    | recvError => simp [ws_waiter, wsConfirmed]
    | recv m =>
      cases hpr : ws_process target m with
      | confirm =>
        exfalso
        simp [qualifies, hpr] at hp
      | skip => simpa [ws_waiter, hpr] using ih hes
      | crash => simp [ws_waiter, hpr, wsConfirmed]

/-- If every existence probe fails, the poll watcher never sets
`http_ready`, whatever the fuel and loop state. -/
theorem http_waiter_go_none (probe : Nat → Bool) (max_wait : ℚ)
    (hprobe : ∀ k, probe k = false) :
    ∀ (fuel k : Nat) (t delay : ℚ),
      http_waiter_go probe max_wait fuel k t delay = none := by
  intro fuel
  induction fuel with
  | zero => intro k t delay; rfl
  | succ n ih => intro k t delay; simp [http_waiter_go, hprobe k, ih]

/-- If every existence probe fails, `http_waiter` returns `none`. -/
theorem http_waiter_none (probe : Nat → Bool) (max_wait : ℚ) (fuel : Nat)
    (hprobe : ∀ k, probe k = false) :
    http_waiter probe max_wait fuel = none :=
  http_waiter_go_none probe max_wait hprobe fuel 0 0 (3 / 2)

/-- In url-only mode, once the watch succeeded, the tail of `run` prints
the download URL and produces no filesystem effect and no process exit. -/
theorem run_tail_url_only (u d dir : Str) (check postCheck dlOk ws_ready http_ready : Bool)
    (hok : (ws_ready || http_ready) = true) :
    Eff.printDownloadUrl u ∈ run_tail u d dir check true ws_ready http_ready postCheck dlOk ∧
    (run_tail u d dir check true ws_ready http_ready postCheck dlOk).all
      (fun e => !(writesFs e) && !(isExitEff e)) = true := by
  cases ws_ready <;> cases http_ready <;> cases check <;> cases postCheck <;>
    simp_all [run_tail, writesFs, isExitEff]

/-! ### Claim C7: which messages are skipped, and which are not -/

/-- C7, counterexample.  The claim says irrelevant messages are skipped
without terminating the watch.  The delivered JSON message `5` is
irrelevant (no command code, no path), yet it is truthy and not a dict, so
`(data or {}).get("Data")` raises an uncaught AttributeError: the push
watcher terminates instead of continuing (processing the message does not
leave the watcher waiting as skipping would), and through the
FIRST_COMPLETED race the whole watch fails immediately — here at time 1
although a probe would have succeeded at 15/4, inside the deadline 180. -/
theorem c7_counterexample :
    ws_process (str "/local/aic_tlp/B.mp4") (some (Json.jnum 5)) = MsgStep.crash ∧
    ws_waiter (str "/local/aic_tlp/B.mp4")
        [((1 : ℚ), WsEvent.recv (some (Json.jnum 5)))] = some (false, 1) ∧
    ws_waiter (str "/local/aic_tlp/B.mp4") [] = none ∧
    run_model (str "printer") (str "/local/aic_tlp/B.mp4") false false
        [((1 : ℚ), WsEvent.recv (some (Json.jnum 5)))] (fun k => decide (2 ≤ k))
        180 60 (str ".") false true = [Eff.errTimedOut, Eff.exitWith 1] := by
  have hws : ws_waiter (str "/local/aic_tlp/B.mp4")
      [((1 : ℚ), WsEvent.recv (some (Json.jnum 5)))] = some (false, 1) := rfl
  refine ⟨rfl, rfl, rfl, ?_⟩
  norm_num [run_model, run_tail, raceResult, hws, http_waiter, http_waiter_go]

/-- C7, amended: a code-323 message whose carried path list's first
element differs from the requested target never sets ConfirmedByPush
(over any event sequence with no qualifying message the watcher never
confirms), and such a message — like non-JSON text and every other
message whose probing completes — is skipped, the watcher continuing with
the remaining events exactly as if the message had not arrived; but a
message whose probing hits a truthy non-dict (or indexes a truthy
non-sequence) raises an uncaught error and terminates the push watcher
without setting any state. -/
theorem c7_mismatch_never_confirms (target : Str) (evs : List (ℚ × WsEvent))
    (h : evs.all (fun p => !(qualifies target p)) = true) :
    wsConfirmed (ws_waiter target evs) = false ∧
    (∀ (t : ℚ) (m : Option Json) (es : List (ℚ × WsEvent)),
      ws_process target m = MsgStep.skip →
      ws_waiter target ((t, WsEvent.recv m) :: es) = ws_waiter target es) ∧
    (∀ (t : ℚ) (es : List (ℚ × WsEvent)),
      ws_waiter target ((t, WsEvent.recv none) :: es) = ws_waiter target es) ∧
    (∀ (s : Str) (more : List Json), s ≠ target →
      ws_process target (some (Json.jobj [(str "Data", Json.jobj
        [(str "Cmd", Json.jnum 323),
         (str "Data", Json.jobj [(str "Url",
           Json.jarr (Json.jstr s :: more))])])]))
        = MsgStep.skip) ∧
    (∀ (t : ℚ) (m : Option Json) (es : List (ℚ × WsEvent)),
      ws_process target m = MsgStep.crash →
      ws_waiter target ((t, WsEvent.recv m) :: es) = some (false, t)) := by
  refine ⟨ws_waiter_no_confirm target evs h, ?_, fun t es => rfl, ?_, ?_⟩
  · intro t m es hskip
    simp [ws_waiter, hskip]
  · intro s more hs
    show (if jeqStr (some (Json.jstr s)) target
        then MsgStep.confirm else MsgStep.skip) = MsgStep.skip
    simp [jeqStr, hs]
  · intro t m es hcrash
    simp [ws_waiter, hcrash]

/-- C7, witness: a 323 message for a different file, a non-JSON text and a
receive sub-timeout leave the watcher unconfirmed, and the different-path
message's processing is a skip. -/
theorem c7_witness :
    wsConfirmed (ws_waiter (str "/local/aic_tlp/B.mp4")
      [((0 : ℚ), WsEvent.recv (some (Json.jobj [(str "Data", Json.jobj
          [(str "Cmd", Json.jnum 323),
           (str "Data", Json.jobj [(str "Url",
             Json.jarr [Json.jstr (str "/local/aic_tlp/A.mp4")])])])]))),
       ((1 : ℚ), WsEvent.recv none),
       ((2 : ℚ), WsEvent.timeout)]) = false ∧
    ws_process (str "/local/aic_tlp/B.mp4") (some (Json.jobj [(str "Data", Json.jobj
        [(str "Cmd", Json.jnum 323),
         (str "Data", Json.jobj [(str "Url",
           Json.jarr [Json.jstr (str "/local/aic_tlp/A.mp4")])])])]))
      = MsgStep.skip :=
  ⟨(c7_mismatch_never_confirms (str "/local/aic_tlp/B.mp4") _ (by decide)).1,
   (c7_mismatch_never_confirms (str "/local/aic_tlp/B.mp4") [] (by decide)).2.2.2.1
     (str "/local/aic_tlp/A.mp4") [] (by decide)⟩

/-! ### Claim C8: deadline elapses with no signal -/

/-- C8: with zero qualifying push messages and zero successful existence
probes, the watch outcome is TimedOut, the run surfaces exactly the
timeout error and exit code 1, and no filesystem effect (directory
creation or download) occurs. -/
theorem c8_timeout_no_download (host target download_dir : Str)
    (check url_only postCheck dlOk : Bool) (wsEvents : List (ℚ × WsEvent))
    (probe : Nat → Bool) (max_wait : ℚ) (fuel : Nat)
    (hws : wsEvents.all (fun p => !(qualifies target p)) = true)
    (hprobe : ∀ k, probe k = false) :
    watchOutcome
        (raceResult (ws_waiter target wsEvents) (http_waiter probe max_wait fuel) max_wait).1
        (raceResult (ws_waiter target wsEvents) (http_waiter probe max_wait fuel) max_wait).2.1
      = CompletionState.timedOut ∧
    run_model host target check url_only wsEvents probe max_wait fuel
        download_dir postCheck dlOk = [Eff.errTimedOut, Eff.exitWith 1] ∧
    (run_model host target check url_only wsEvents probe max_wait fuel
        download_dir postCheck dlOk).all (fun e => !(writesFs e)) = true := by
  have hpoll : http_waiter probe max_wait fuel = none :=
    http_waiter_none probe max_wait fuel hprobe
  have hconf := ws_waiter_no_confirm target wsEvents hws
  cases hws' : ws_waiter target wsEvents with
  | none =>
    refine ⟨?_, ?_, ?_⟩ <;>
      simp [run_model, run_tail, raceResult, hpoll, hws', watchOutcome, writesFs]
  | some wd =>
    obtain ⟨b, tw⟩ := wd
    cases b with
    | false =>
      refine ⟨?_, ?_, ?_⟩ <;>
        simp [run_model, run_tail, raceResult, hpoll, hws', watchOutcome, writesFs]
    | true =>
      rw [hws'] at hconf
      simp [wsConfirmed] at hconf

/-- C8, witness: a concrete run whose only event is a receive sub-timeout
and whose probes all fail times out with exit code 1 and writes nothing. -/
theorem c8_witness :
    watchOutcome
        (raceResult (ws_waiter (str "/local/aic_tlp/A.mp4") [((0 : ℚ), WsEvent.timeout)])
          (http_waiter (fun _ => false) 3 4) 3).1
        (raceResult (ws_waiter (str "/local/aic_tlp/A.mp4") [((0 : ℚ), WsEvent.timeout)])
          (http_waiter (fun _ => false) 3 4) 3).2.1
      = CompletionState.timedOut ∧
    run_model (str "printer") (str "/local/aic_tlp/A.mp4") false false
        [((0 : ℚ), WsEvent.timeout)] (fun _ => false) 3 4 (str ".") false true
      = [Eff.errTimedOut, Eff.exitWith 1] ∧
    (run_model (str "printer") (str "/local/aic_tlp/A.mp4") false false
        [((0 : ℚ), WsEvent.timeout)] (fun _ => false) 3 4 (str ".") false true).all
      (fun e => !(writesFs e)) = true :=
  c8_timeout_no_download (str "printer") (str "/local/aic_tlp/A.mp4") (str ".")
    false false false true [((0 : ℚ), WsEvent.timeout)] (fun _ => false) 3 4
    (by decide) (fun _ => rfl)

/-! ### Claim C10: url-only mode leaves the filesystem unchanged -/

/-- C10: a run in url-only mode that reaches a confirmed outcome prints
the download URL and returns without invoking the downloader, without
creating the output directory and without any process exit. -/
theorem c10_url_only_frame (host target download_dir : Str)
    (check postCheck dlOk : Bool) (wsEvents : List (ℚ × WsEvent))
    (probe : Nat → Bool) (max_wait : ℚ) (fuel : Nat)
    (hok : ((raceResult (ws_waiter target wsEvents) (http_waiter probe max_wait fuel) max_wait).1
        || (raceResult (ws_waiter target wsEvents) (http_waiter probe max_wait fuel) max_wait).2.1)
      = true) :
    Eff.printDownloadUrl (str "http://" ++ host ++ target) ∈
      run_model host target check true wsEvents probe max_wait fuel
        download_dir postCheck dlOk ∧
    (run_model host target check true wsEvents probe max_wait fuel
        download_dir postCheck dlOk).all
      (fun e => !(writesFs e) && !(isExitEff e)) = true := by
  have h := run_tail_url_only (str "http://" ++ host ++ target)
    (path_join download_dir (basename target)) download_dir check postCheck dlOk
    (raceResult (ws_waiter target wsEvents) (http_waiter probe max_wait fuel) max_wait).1
    (raceResult (ws_waiter target wsEvents) (http_waiter probe max_wait fuel) max_wait).2.1
    hok
  simpa [run_model] using h

/-- C10, witness: a run confirmed by an immediate push message, in
url-only mode, prints the URL and leaves the filesystem untouched. -/
theorem c10_witness :
    Eff.printDownloadUrl (str "http://" ++ str "printer" ++ str "/local/aic_tlp/A.mp4") ∈
      run_model (str "printer") (str "/local/aic_tlp/A.mp4") false true
        [((0 : ℚ), WsEvent.recv (some (Json.jobj [(str "Data", Json.jobj
          [(str "Cmd", Json.jnum 323),
           (str "Data", Json.jobj [(str "Url",
             Json.jarr [Json.jstr (str "/local/aic_tlp/A.mp4")])])])])))]
        (fun _ => false) 3 4 (str ".") false true ∧
    (run_model (str "printer") (str "/local/aic_tlp/A.mp4") false true
        [((0 : ℚ), WsEvent.recv (some (Json.jobj [(str "Data", Json.jobj
          [(str "Cmd", Json.jnum 323),
           (str "Data", Json.jobj [(str "Url",
             Json.jarr [Json.jstr (str "/local/aic_tlp/A.mp4")])])])])))]
        (fun _ => false) 3 4 (str ".") false true).all
      (fun e => !(writesFs e) && !(isExitEff e)) = true :=
  c10_url_only_frame (str "printer") (str "/local/aic_tlp/A.mp4") (str ".")
    false false true
    [((0 : ℚ), WsEvent.recv (some (Json.jobj [(str "Data", Json.jobj
      [(str "Cmd", Json.jnum 323),
       (str "Data", Json.jobj [(str "Url",
         Json.jarr [Json.jstr (str "/local/aic_tlp/A.mp4")])])])])))]
    (fun _ => false) 3 4
    (by
      have hws : ws_waiter (str "/local/aic_tlp/A.mp4")
          [((0 : ℚ), WsEvent.recv (some (Json.jobj [(str "Data", Json.jobj
            [(str "Cmd", Json.jnum 323),
             (str "Data", Json.jobj [(str "Url",
               Json.jarr [Json.jstr (str "/local/aic_tlp/A.mp4")])])])])))]
          = some (true, 0) := rfl
      rw [hws, http_waiter_none (fun _ => false) 3 4 (fun _ => rfl)]
      rfl)

/-! ### Helper lemmas on the download retry loop -/

/-- The loop never records more attempts than the budget, given the fuel
invariant of `download_file`. -/
theorem download_go_attempts {ε : Type} (attempt : Nat → Option ε)
    (retries : Nat) (backoff : ℚ) :
    ∀ (fuel i : Nat) (wait : ℚ) (sleeps : List ℚ),
      fuel + i = retries + 1 →
      (download_go attempt retries backoff fuel i wait sleeps).attemptsMade ≤ retries := by
  intro fuel
  induction fuel with
  | zero =>
    intro i wait sleeps hinv
    simp only [download_go]
    omega
  | succ n ih =>
    intro i wait sleeps hinv
    simp only [download_go]
    cases attempt i with
    | none => simp; omega
    | some e =>
      by_cases hi : i = retries
      · simp [hi]
      · simp only [hi, if_false]
        exact ih (i + 1) _ _ (by omega)

/-- The slept delays always satisfy the chain invariant: each one is the
previous one times the growth factor, clamped at the ceiling 8. -/
theorem download_go_chain {ε : Type} (attempt : Nat → Option ε)
    (retries : Nat) (backoff : ℚ) :
    ∀ (fuel i : Nat) (wait : ℚ) (sleeps : List ℚ),
      List.Chain' (fun a b => b = min (a * backoff) 8) (sleeps ++ [wait]) →
      List.Chain' (fun a b => b = min (a * backoff) 8)
        (download_go attempt retries backoff fuel i wait sleeps).sleeps := by
  intro fuel
  induction fuel with
  | zero =>
    intro i wait sleeps hch
    exact List.Chain'.prefix hch (List.prefix_append sleeps [wait])
  | succ n ih =>
    intro i wait sleeps hch
    simp only [download_go]
    cases attempt i with
    | none => exact List.Chain'.prefix hch (List.prefix_append sleeps [wait])
    | some e =>
      by_cases hi : i = retries
      · simpa [hi] using List.Chain'.prefix hch (List.prefix_append sleeps [wait])
      · simp only [hi, if_false]
        refine ih (i + 1) _ _ ?_
        rw [List.chain'_append]
        refine ⟨hch, List.chain'_singleton _, ?_⟩
        intro x hx y hy
        rw [List.getLast?_concat] at hx
        simp only [List.head?_cons, Option.mem_def, Option.some.injEq] at hx hy
        rw [← hx, ← hy]

/-- Every slept delay stays at or below the ceiling 8, given that the
current backoff does. -/
theorem download_go_capped {ε : Type} (attempt : Nat → Option ε)
    (retries : Nat) (backoff : ℚ) :
    ∀ (fuel i : Nat) (wait : ℚ) (sleeps : List ℚ),
      (∀ d ∈ sleeps, d ≤ 8) → wait ≤ 8 →
      ∀ d ∈ (download_go attempt retries backoff fuel i wait sleeps).sleeps, d ≤ 8 := by
  intro fuel
  induction fuel with
  | zero => intro i wait sleeps hs hw; simpa [download_go] using hs
  | succ n ih =>
    intro i wait sleeps hs hw
    simp only [download_go]
    cases attempt i with
    | none => simpa using hs
    | some e =>
      by_cases hi : i = retries
      · simpa [hi] using hs
      · simp only [hi, if_false]
        refine ih (i + 1) _ _ ?_ (min_le_right _ _)
        intro d hd
        rcases List.mem_append.mp hd with hd | hd
        · exact hs d hd
        · simp only [List.mem_singleton] at hd
          exact hd ▸ hw

/-- Every slept delay stays positive when the growth factor is at least
one, given that the current backoff is positive. -/
theorem download_go_pos {ε : Type} (attempt : Nat → Option ε)
    (retries : Nat) (backoff : ℚ) (hb : 1 ≤ backoff) :
    ∀ (fuel i : Nat) (wait : ℚ) (sleeps : List ℚ),
      (∀ d ∈ sleeps, 0 < d) → 0 < wait →
      ∀ d ∈ (download_go attempt retries backoff fuel i wait sleeps).sleeps, 0 < d := by
  intro fuel
  induction fuel with
  | zero => intro i wait sleeps hs hw; simpa [download_go] using hs
  | succ n ih =>
    intro i wait sleeps hs hw
    simp only [download_go]
    cases attempt i with
    | none => simpa using hs
    | some e =>
      by_cases hi : i = retries
      · simpa [hi] using hs
      · simp only [hi, if_false]
        refine ih (i + 1) _ _ ?_ ?_
        · intro d hd
          rcases List.mem_append.mp hd with hd | hd
          · exact hs d hd
          · simp only [List.mem_singleton] at hd
            exact hd ▸ hw
        · have h1 : 0 < wait * backoff := mul_pos hw (lt_of_lt_of_le one_pos hb)
          exact lt_min h1 (by norm_num)

/-- When every attempt fails and at least one attempt remains, the loop
returns failure carrying the outcome of the final attempt. -/
theorem download_go_last_cause {ε : Type} (attempt : Nat → Option ε)
    (retries : Nat) (backoff : ℚ) (hfail : ∀ k, attempt k ≠ none) :
    ∀ (fuel i : Nat) (wait : ℚ) (sleeps : List ℚ),
      fuel + i = retries + 1 → i ≤ retries →
      (download_go attempt retries backoff fuel i wait sleeps).success = false ∧
      (download_go attempt retries backoff fuel i wait sleeps).lastError = attempt retries := by
  intro fuel
  induction fuel with
  | zero => intro i wait sleeps hinv hle; omega
  | succ n ih =>
    intro i wait sleeps hinv hle
    simp only [download_go]
    cases heq : attempt i with
    | none => exact absurd heq (hfail i)
    | some e =>
      by_cases hi : i = retries
      · subst hi
        simp [heq]
      · simp only [hi, if_false]
        exact ih (i + 1) _ _ (by omega) (by omega)

/-- A chain of clamped multiplicative updates over positive, capped values
is nondecreasing when the growth factor is at least one. -/
theorem chain_min_mono (backoff : ℚ) (hb : 1 ≤ backoff) :
    ∀ l : List ℚ,
      List.Chain' (fun a b => b = min (a * backoff) 8) l →
      (∀ d ∈ l, 0 < d) → (∀ d ∈ l, d ≤ 8) →
      List.Chain' (fun a b : ℚ => a ≤ b) l := by
  intro l
  induction l with
  | nil => intro _ _ _; exact List.chain'_nil
  | cons a t ih =>
    intro hch hpos hcap
    cases t with
    | nil => exact List.chain'_singleton a
    | cons b t' =>
      rw [List.chain'_cons] at hch ⊢
      obtain ⟨hab, hrest⟩ := hch
      refine ⟨?_, ih hrest (fun d hd => hpos d (List.mem_cons_of_mem a hd))
        (fun d hd => hcap d (List.mem_cons_of_mem a hd))⟩
      have ha0 : 0 < a := hpos a (List.mem_cons_self a _)
      have ha8 : a ≤ 8 := hcap a (List.mem_cons_self a _)
      have : a ≤ a * backoff := le_mul_of_one_le_right (le_of_lt ha0) hb
      rw [hab]
      exact le_min this ha8

/-! ### Claim C9: downloader retry discipline -/

/-- C9: the downloader performs at most its attempt budget of attempts;
the backoff delays slept between consecutive failed attempts obey "next =
min(previous * growth, 8)", are all at most the ceiling 8, and form a
nondecreasing sequence whenever the growth factor is at least one; and
when every attempt fails (with at least one attempt configured) the result
is failure carrying the outcome of the last attempt. -/
theorem c9_retry_discipline {ε : Type} (attempt : Nat → Option ε)
    (retries : Nat) (backoff : ℚ) :
    (download_file attempt retries backoff).attemptsMade ≤ retries ∧
    List.Chain' (fun a b => b = min (a * backoff) 8)
      (download_file attempt retries backoff).sleeps ∧
    (∀ d ∈ (download_file attempt retries backoff).sleeps, d ≤ 8) ∧
    (1 ≤ backoff →
      List.Chain' (fun a b : ℚ => a ≤ b) (download_file attempt retries backoff).sleeps) ∧
    ((∀ k, attempt k ≠ none) → 1 ≤ retries →
      (download_file attempt retries backoff).success = false ∧
      (download_file attempt retries backoff).lastError = attempt retries) := by
  have h0 : ∀ d ∈ ([] : List ℚ), d ≤ 8 := by intro d hd; cases hd
  have h0' : ∀ d ∈ ([] : List ℚ), (0 : ℚ) < d := by intro d hd; cases hd
  refine ⟨download_go_attempts attempt retries backoff retries 1 1 [] (by omega),
    download_go_chain attempt retries backoff retries 1 1 []
      (List.chain'_singleton 1),
    download_go_capped attempt retries backoff retries 1 1 [] h0 (by norm_num),
    fun hb => ?_,
    fun hfail hr =>
      download_go_last_cause attempt retries backoff hfail retries 1 1 []
        (by omega) hr⟩
  exact chain_min_mono backoff hb _
    (download_go_chain attempt retries backoff retries 1 1 [] (List.chain'_singleton 1))
    (download_go_pos attempt retries backoff hb retries 1 1 [] h0' (by norm_num))
    (download_go_capped attempt retries backoff retries 1 1 [] h0 (by norm_num))

/-- C9, witness: three attempts that all fail with cause 7 make the
downloader give up with that cause, after at most the budgeted attempts. -/
theorem c9_witness :
    (download_file (fun _ => some 7) 3 (3 / 2) : DLRun Nat).attemptsMade ≤ 3 ∧
    (download_file (fun _ => some 7) 3 (3 / 2) : DLRun Nat).success = false ∧
    (download_file (fun _ => some 7) 3 (3 / 2) : DLRun Nat).lastError = some 7 := by
  have h := c9_retry_discipline (fun _ => some (7 : Nat)) 3 (3 / 2)
  have hl := h.2.2.2.2 (fun k => by simp) (by norm_num)
  exact ⟨h.1, hl.1, hl.2⟩

/-! ### Helper lemmas on the listing reduce -/

/-- The row loop is the entry-level reduce over the qualifying rows. -/
theorem foldl_rowStep_filterMap :
    ∀ (rows : List Row) (acc : Option Entry),
      rows.foldl rowStep acc = (rows.filterMap rowEntry).foldl stepEntry acc := by
  intro rows
  induction rows with
  | nil => intro acc; rfl
  | cons r rest ih =>
    intro acc
    rw [List.foldl_cons]
    cases hre : rowEntry r with
    | none => simp [rowStep, hre, ih, List.filterMap_cons]
    | some e => simp [rowStep, hre, ih, List.filterMap_cons]

/-- Once seeded, the entry-level reduce is the binary running maximum. -/
theorem foldl_stepEntry_some :
    ∀ (xs : List Entry) (x : Entry),
      xs.foldl stepEntry (some x) = some (xs.foldl better x) := by
  intro xs
  induction xs with
  | nil => intro x; rfl
  | cons y ys ih =>
    intro x
    rw [List.foldl_cons, List.foldl_cons]
    have hstep : stepEntry (some x) y = some (better x y) := by
      by_cases hc : y.modified > x.modified
      · simp [stepEntry, better, hc]
      · simp [stepEntry, better, hc]
    rw [hstep, ih]

/-- The running maximum of `better` is the first entry of maximal ordinal:
the list splits around it, every earlier entry has a strictly smaller
ordinal, and no entry has a larger one. -/
theorem foldl_better_first_max :
    ∀ (xs : List Entry) (x : Entry),
      ∃ pre post, x :: xs = pre ++ (xs.foldl better x) :: post ∧
        (∀ a ∈ pre, a.modified < (xs.foldl better x).modified) ∧
        (∀ z ∈ x :: xs, z.modified ≤ (xs.foldl better x).modified) := by
  intro xs
  induction xs with
  | nil =>
    intro x
    refine ⟨[], [], rfl, by simp, ?_⟩
    intro z hz
    rcases List.mem_singleton.mp hz with rfl
    simp
  | cons y ys ih =>
    intro x
    rw [List.foldl_cons]
    obtain ⟨pre, post, heq, hpre, hall⟩ := ih (better x y)
    by_cases hxy : y.modified > x.modified
    · have hb : better x y = y := if_pos hxy
      rw [hb] at heq hpre hall ⊢
      have hy : y.modified ≤ (ys.foldl better y).modified :=
        hall y (List.mem_cons_self y ys)
      refine ⟨x :: pre, post, ?_, ?_, ?_⟩
      · rw [List.cons_append, ← heq]
      · intro a ha
        rcases List.mem_cons.mp ha with rfl | ha
        · omega
        · exact hpre a ha
      · intro z hz
        rcases List.mem_cons.mp hz with rfl | hz
        · omega
        · exact hall z hz
    · have hb : better x y = x := if_neg hxy
      rw [hb] at heq hpre hall ⊢
      have hyx : y.modified ≤ x.modified := by omega
      have hx : x.modified ≤ (ys.foldl better x).modified :=
        hall x (List.mem_cons_self x ys)
      cases pre with
      | nil =>
        simp only [List.nil_append] at heq
        injection heq with h1 h2
        refine ⟨[], y :: post, ?_, by simp, ?_⟩
        · rw [List.nil_append, ← h1, ← h2]
        · intro z hz
          rcases List.mem_cons.mp hz with rfl | hz
          · exact hx
          · rcases List.mem_cons.mp hz with rfl | hz
            · have : x.modified = (ys.foldl better x).modified := by rw [← h1]
              omega
            · exact hall z (List.mem_cons_of_mem x hz)
      | cons b pre₂ =>
        rw [List.cons_append] at heq
        injection heq with h1 h2
        have hxmem : x ∈ b :: pre₂ := by
          rw [← h1]
          exact List.mem_cons_self x pre₂
        have hxlt : x.modified < (ys.foldl better x).modified := hpre x hxmem
        refine ⟨x :: y :: pre₂, post, ?_, ?_, ?_⟩
        · rw [List.cons_append, List.cons_append, ← h2]
        · intro a ha
          rcases List.mem_cons.mp ha with rfl | ha
          · exact hxlt
          · rcases List.mem_cons.mp ha with rfl | ha
            · omega
            · exact hpre a (by rw [← h1]; exact List.mem_cons_of_mem x ha)
        · intro z hz
          rcases List.mem_cons.mp hz with rfl | hz
          · exact hx
          · rcases List.mem_cons.mp hz with rfl | hz
            · omega
            · exact hall z (List.mem_cons_of_mem x hz)

/-! ### Claim C2: the resolver returns the first entry of maximal ordinal -/

/-- C2: the resolver equals the spec-side description: among the rows with
a usable anchor and a parsed ordinal (and only those), return the first
entry whose ordinal is maximal — `none` when no row qualifies. -/
theorem c2_resolver_stable_max (rows : List Row) :
    parse_latest_from_listing rows = latestSpec (rows.filterMap rowEntry) := by
  rw [parse_latest_from_listing, foldl_rowStep_filterMap]
  cases hq : rows.filterMap rowEntry with
  | nil => rfl
  | cons x xs =>
    rw [latestSpec]
    have h1 : (x :: xs).foldl stepEntry none = some (xs.foldl better x) := by
      rw [List.foldl_cons]
      exact foldl_stepEntry_some xs x
    rw [h1]
    obtain ⟨pre, post, heq, hpre, hall⟩ := foldl_better_first_max xs x
    symm
    rw [List.find?_eq_some]
    constructor
    · rw [List.all_eq_true]
      intro z hz
      simpa using hall z hz
    · refine ⟨pre, post, heq, ?_⟩
      intro a ha
      have hm : xs.foldl better x ∈ x :: xs := by
        rw [heq]
        exact List.mem_append_right pre (List.mem_cons_self _ _)
      have hlt := hpre a ha
      simp only [Bool.not_eq_true', List.all_eq_false, decide_eq_true_eq]
      exact ⟨_, hm, by omega⟩

/-! ### Claim C6: the extension can be double-appended -/

/-- C6, behaviour of the code at the failing input.  With listing path
`/a/FOO.mp4/` and a listing whose winning row carries the self-link
anchor `.` (admitted by the anchor filter: it contains no `.mp4`),
`urljoin("/a/FOO.mp4/", ".")` resolves to `/a/FOO.mp4/`; stripping the
trailing separator leaves `/a/FOO.mp4`, which already ends in the
extension, and the unconditional append of line 114 produces the doubled
`/a/FOO.mp4.mp4` — the append the claim (and the spec's edge-case rule)
requires to be detected and skipped. -/
theorem c6_double_append :
    find_latest_mp4_path (some [⟨[⟨str ".", str "current"⟩], [7]⟩])
        (str "/a/FOO.mp4/") = Except.ok (str "/a/FOO.mp4.mp4") ∧
    (str ".mp4.mp4") <:+ (str "/a/FOO.mp4.mp4") := by
  exact ⟨rfl, by decide⟩

end CentauriExport
